import Mathlib

/-!
Shallow embedding of src/src/state/observable-state.ts: the class
ObservableState over a record type T with string keys.

Modelling conventions:
* Field values are modelled as Nat, read as opaque reference identities:
  the JavaScript identity comparison v1 === v2 used by the change-detection
  comparators becomes equality of these identities.  Deep structure of the
  values never matters to the code under study, only identity.
* A record value (an instance of T) is a total function from keys to value
  identities; the declared key set of T is passed around explicitly as a
  list allKeys where the code uses Object.keys.
* A Partial of T is the list of fields actually present in the object, in
  enumeration order, exactly what Object.keys iterates over.
* RxJS streams are modelled by their delivered-value traces.  Execution is
  single threaded and push based (spec section 5), so a BehaviorSubject
  delivery trace is a list, and syncState delivers the value just pushed.
* A thrown Error becomes Except.error carrying the message string from the
  source.
-/

namespace ObsState

/-- Field names of the record type T (string keys). -/
abbrev Key := String

/-- Field values as opaque reference identities; === is equality here. -/
abbrev Val := Nat

/-- An instance of the record type T: a value for every field. -/
def RecordT : Type := Key → Val

/-- A Partial of T: the list of fields present, with their values, in
Object.keys enumeration order.  JavaScript object keys are unique. -/
abbrev PatchArg := List (Key × Val)

/-- One spread step: the object spread { ...ns, [key]: v } of line 141. -/
def setField (s : RecordT) (k : Key) (v : Val) : RecordT :=
  fun k2 => if k2 = k then v else s k2

/-- The merge loop of patch, lines 139-142: start from a copy of the current
state and fold the spread over Object.keys of the argument. -/
def patchMerge (cur : RecordT) (p : PatchArg) : RecordT :=
  p.foldl (fun ns kv => setField ns kv.1 kv.2) cur

/-- The message of line 36, thrown by snapshot and patch when the
BehaviorSubject still holds null. -/
def notInitializedError : String :=
  "Observable state is not initialized yet, call the initialize() method"

/-- The snapshot getter, lines 61-66: throws when the cell holds null,
otherwise returns the current value synchronously. -/
def snapshotOf (cell : Option RecordT) : Except String RecordT :=
  match cell with
  | none => Except.error notInitializedError
  | some s => Except.ok s

/-- patch as a call on the cell, lines 135-144: throws when the cell holds
null, otherwise returns the merged new state that is pushed. -/
def patchExc (cell : Option RecordT) (p : PatchArg) : Except String RecordT :=
  match cell with
  | none => Except.error notInitializedError
  | some cur => Except.ok (patchMerge cur p)

/-- The trace of state$$.next calls one patch call performs, line 143: none
when it throws, and exactly one push of the fully merged state otherwise.
The intermediate objects built by the loop of lines 140-142 are local to
the call and never pushed. -/
def patchPushes (cell : Option RecordT) (p : PatchArg) : List RecordT :=
  match cell with
  | none => []
  | some cur => [patchMerge cur p]

/-- Operations that write the state cell: initialize (line 76) and patch
(lines 135-144).  the optional input stream of initialize only re-enters through
patch (line 80), so its values appear as patch operations here. -/
inductive SOp : Type
  | init (s : RecordT)
  | patchOp (p : PatchArg)

/-- Effect of one operation on the cell.  initialize always overwrites the
cell (last write wins, line 76); patch on an uninitialized cell throws and
leaves the cell unchanged (lines 136-138). -/
def stepCell (cell : Option RecordT) : SOp → Option RecordT
  | SOp.init s => some s
  | SOp.patchOp p =>
      match cell with
      | none => none
      | some cur => some (patchMerge cur p)

/-- Run a sequence of operations against the cell.  The cell starts as
null (line 38). -/
def runOps (cell : Option RecordT) (ops : List SOp) : Option RecordT :=
  ops.foldl stepCell cell

/-- Whether an operation is an initialize call. -/
def isInit : SOp → Bool
  | SOp.init _ => true
  | SOp.patchOp _ => false

/-- Whether the sequence contains an initialize call; every initialize call
succeeds (line 76 has no guard). -/
def hasInit (ops : List SOp) : Bool := ops.any isInit

/- ### Selection engine -/

/-- filterAndCastToT, lines 17-21: drop the initial null of the
BehaviorSubject from the delivered trace. -/
def filterAndCastToT (inputs : List (Option RecordT)) : List RecordT :=
  inputs.filterMap id

/-- The distinctUntilChanged comparator of onlySelectWhen, lines 113-117:
the candidate emission is suppressed when every requested key holds an
identical (===) value in the previous emission. -/
def keysAllEq (keys : List Key) (previous current : RecordT) : Bool :=
  keys.all fun k => current k == previous k

/-- The distinctUntilChanged comparator of state$, lines 49-53.  It
iterates Object.keys(current); records of the declared type T always carry
exactly the declared key set, passed here as allKeys. -/
def stateKeysAllEq (allKeys : List Key) (previous current : RecordT) : Bool :=
  allKeys.all fun k => current k == previous k

/-- rxjs distinctUntilChanged over a delivered trace.  The comparison state
is the last emitted value (none right after subscription, so the first
arriving value is always emitted); a suppressed value does not become the
comparison point. -/
def distinctFrom (cmp : RecordT → RecordT → Bool) :
    Option RecordT → List RecordT → List RecordT
  | _, [] => []
  | none, s :: rest => s :: distinctFrom cmp (some s) rest
  | some prev, s :: rest =>
      if cmp prev s then distinctFrom cmp (some prev) rest
      else s :: distinctFrom cmp (some s) rest

/-- onlySelectWhen, lines 110-120: emissions a subscriber receives, as a
function of the delivered trace of the cell (current value replay included as
the head of inputs). -/
def onlySelectWhen (keys : List Key) (inputs : List (Option RecordT)) :
    List RecordT :=
  distinctFrom (keysAllEq keys) none (filterAndCastToT inputs)

/-- state$, lines 47-55: same pipeline with the comparator over
Object.keys(current). -/
def stateStream (allKeys : List Key) (inputs : List (Option RecordT)) :
    List RecordT :=
  distinctFrom (stateKeysAllEq allKeys) none (filterAndCastToT inputs)

/- ### Lifecycle: destroy$$ and takeUntil -/

/-- An event on a stream guarded by takeUntil(destroy$$): either an
upstream value or the firing of destroy$$ (ngOnDestroy, lines 177-180). -/
inductive LEv (α : Type) : Type
  | ev (a : α)
  | destroy

/-- takeUntil(destroy$$) over a delivered trace: values are forwarded
until destroy$$ first fires, then the subscription completes.  destroy$$
fires at most once (it is completed right after next, line 179); a
subscription created after that never observes a firing, because takeUntil
reacts to notifier emissions only, not to its completion. -/
def untilDestroy {α : Type} : List (LEv α) → List α
  | [] => []
  | LEv.ev a :: rest => a :: untilDestroy rest
  | LEv.destroy :: _ => []

/-- The stored value of the BehaviorSubject after a prefix of the event trace:
the last pushed state.  ngOnDestroy does not clear or complete the cell. -/
def cellValueAfter (cell : Option RecordT) : List (LEv RecordT) → Option RecordT
  | [] => cell
  | LEv.ev s :: rest => cellValueAfter (some s) rest
  | LEv.destroy :: rest => cellValueAfter cell rest

/-- What a subscriber that subscribes at position t of the
event trace receives from the cell before change detection: the replayed
current value (none is filtered by filterAndCastToT), then every push
until destroy$$ fires at or after t. -/
def subscriberInputs (t : Nat) (evs : List (LEv RecordT)) : List RecordT :=
  (cellValueAfter none (evs.take t)).toList ++ untilDestroy (evs.drop t)

/-- Emissions of onlySelectWhen keys (and, by the state-stream equivalence,
of state$ when keys is the declared key set) to a subscriber subscribing at
position t of the event trace. -/
def selectEmissionsAt (keys : List Key) (t : Nat) (evs : List (LEv RecordT)) :
    List RecordT :=
  distinctFrom (keysAllEq keys) none (subscriberInputs t evs)

/-- The patch arguments the optional input stream of initialize applies, lines
78-80: one patch per value delivered before destroy$$ fires. -/
def sourcePatchesApplied (svs : List (LEv PatchArg)) : List PatchArg :=
  untilDestroy svs

/- ### Producer binding (connect / trigger) -/

/-- Events seen by the binding of one field after connect: a firing of the
trigger channel of the field, or a value produced by the bound producer. -/
inductive BEv : Type
  | fire
  | produce (v : Val)

/-- Delivery semantics of one event through the pipeline of lines 97-102,
combineLatest([trigger, producer]) followed by
switchMap(([_, value]) => producer.pipe(startWith(value))), as a function
of the latest producer value held by combineLatest.  Derivation from rxjs delivery
order: the trigger slot is always filled (the ReplaySubject(1) buffers a
firing); combineLatest subscribed to the producer before any switchMap
inner subscription, so a produced value reaches combineLatest first, the
switch closes the previous inner subscription before the value would reach
it, and the fresh inner subscription starts after the current delivery.
Hence each event yields exactly the startWith replay of the switch it
causes: a produced value yields itself, a trigger firing yields the latest
produced value, and a trigger firing before any produced value yields
nothing because combineLatest has not emitted yet. -/
def bindStep (lastVal : Option Val) : BEv → Option Val × List Val
  | BEv.fire => (lastVal, lastVal.toList)
  | BEv.produce v => (some v, [v])

/-- Values the derived stream of one connect binding delivers to its
subscriber (line 102) over an event trace, threading the
latest producer value. -/
def bindOutputsFrom (lastVal : Option Val) : List BEv → List Val
  | [] => []
  | e :: rest =>
      (bindStep lastVal e).2 ++ bindOutputsFrom (bindStep lastVal e).1 rest

/-- Connect for one field, lines 88-104: the trigger channel is created
with one buffered firing (lines 92-95), replayed to combineLatest when the
binding subscribes, so the trace starts with a firing. -/
def connectOutputs (evs : List BEv) : List Val :=
  bindOutputsFrom none (BEv.fire :: evs)

/-- The latest producer value held by combineLatest after processing a trace. -/
def bindValAfter (lastVal : Option Val) (evs : List BEv) : Option Val :=
  evs.foldl (fun acc e => (bindStep acc e).1) lastVal

/-- The last produced value in a trace, read off the trace, folding from a
given starting point. -/
def lastProducedFrom (acc : Option Val) (evs : List BEv) : Option Val :=
  evs.foldl (fun a e => match e with
    | BEv.fire => a
    | BEv.produce v => some v) acc

/-- The last produced value in a trace, read off the trace. -/
def lastProduced (evs : List BEv) : Option Val :=
  lastProducedFrom none evs

/-- Line 102: every value of the derived stream is applied as a
single-field patch of the bound field. -/
def bindingPatches (field : Key) (evs : List BEv) : List PatchArg :=
  (connectOutputs evs).map (fun v => [(field, v)])

/-- A connect binding under the lifecycle scope: the derived stream pipes
through takeUntil(destroy$$), line 100, so only events delivered before
destroy$$ fires are processed. -/
def connectOutputsLive (evs : List (LEv BEv)) : List Val :=
  connectOutputs (untilDestroy evs)

/- ### Trigger registry -/

/-- Registry-visible operations: a connect call with the keys of its
argument object (lines 88-104) and explicit trigger calls (lines 167-175). -/
inductive TOp : Type
  | connectOp (ks : List Key)
  | triggerOp (k : Key)

/-- Lines 92-95: a trigger channel is created lazily, only when absent. -/
def addKey (reg : List Key) (k : Key) : List Key :=
  if k ∈ reg then reg else reg ++ [k]

/-- Effect of one operation on the trigger registry: connect adds each key
of its argument if absent; trigger never changes the registry. -/
def stepRegistry (reg : List Key) : TOp → List Key
  | TOp.connectOp ks => ks.foldl addKey reg
  | TOp.triggerOp _ => reg

/-- The trigger registry after a sequence of operations; it starts empty
(line 39). -/
def registryAfter (reg : List Key) (ops : List TOp) : List Key :=
  ops.foldl stepRegistry reg

/-- The message of lines 170-171. -/
def noTriggerRegisteredError : String :=
  "There is no trigger registered for this key! You need to connect an observable. Please use connect to register the triggers"

/-- trigger, lines 167-175: throws when no channel is registered for the
key, otherwise fires the channel (a BEv.fire on the binding
trace). -/
def triggerExc (reg : List Key) (k : Key) : Except String Unit :=
  if k ∈ reg then Except.ok () else Except.error noTriggerRegisteredError

/- ### Concrete example records used to instantiate the theorems -/

/-- A concrete record: every field holds identity 0. -/
def exA : RecordT := fun _ => 0

/-- A concrete record: every field holds identity 1. -/
def exB : RecordT := fun _ => 1

/- ## Helper lemmas -/

theorem patchMerge_append (cur : RecordT) (p : PatchArg) (kv : Key × Val) :
    patchMerge cur (p ++ [kv]) = setField (patchMerge cur p) kv.1 kv.2 := by
  simp [patchMerge, List.foldl_append]

/-- Field-wise description of the merge loop: a field present in the patch
argument takes its (last) patched value, every other field keeps the value
of the current state. -/
theorem patchMerge_apply (cur : RecordT) (p : PatchArg) (k : Key) :
    patchMerge cur p k = ((p.reverse.lookup k).getD (cur k)) := by
  induction p using List.reverseRecOn with
  | nil => simp [patchMerge]
  | append_singleton p kv ih =>
      rw [patchMerge_append]
      by_cases hk : k = kv.1
      · subst hk
        simp [setField, List.lookup]
      · have hbeq : (k == kv.1) = false := by simpa using hk
        simp [setField, hk, List.lookup, hbeq, ih]

theorem lookup_not_mem {k : Key} :
    ∀ (l : PatchArg), k ∉ l.map Prod.fst → l.lookup k = none
  | [], _ => rfl
  | kv :: l, h => by
      have hk : ¬(k = kv.1) := fun he => h (by simp [he])
      have hbeq : (k == kv.1) = false := by simpa using hk
      simp only [List.lookup, hbeq]
      exact lookup_not_mem l (fun hm => h (by simp [hm]))

theorem patchMerge_not_mem (cur : RecordT) (p : PatchArg) (k : Key)
    (hk : k ∉ p.map Prod.fst) : patchMerge cur p k = cur k := by
  rw [patchMerge_apply]
  have h2 : k ∉ p.reverse.map Prod.fst := by simpa using hk
  rw [lookup_not_mem _ h2]
  rfl

theorem runOps_patches (s : RecordT) (ps : List PatchArg) :
    runOps (some s) (ps.map SOp.patchOp) = some (ps.foldl patchMerge s) := by
  induction ps generalizing s with
  | nil => rfl
  | cons p ps ih => simpa [runOps, stepCell] using ih (patchMerge s p)

theorem runOps_isSome (cell : Option RecordT) (ops : List SOp) :
    (runOps cell ops).isSome = (cell.isSome || hasInit ops) := by
  induction ops generalizing cell with
  | nil => simp [runOps, hasInit]
  | cons op ops ih =>
      cases op with
      | init s => simpa [runOps, hasInit, stepCell, isInit] using ih (some s)
      | patchOp p =>
          cases cell with
          | none => simpa [runOps, hasInit, stepCell, isInit] using ih none
          | some cur =>
              simpa [runOps, hasInit, stepCell, isInit] using
                ih (some (patchMerge cur p))

theorem snapshotOf_isOk (v : Option RecordT) :
    (snapshotOf v).isOk = v.isSome := by
  cases v <;> rfl

theorem patchExc_isOk (v : Option RecordT) (p : PatchArg) :
    (patchExc v p).isOk = v.isSome := by
  cases v <;> rfl

theorem distinctFrom_empty_keys (prev : RecordT) :
    ∀ rest, distinctFrom (keysAllEq []) (some prev) rest = []
  | [] => rfl
  | s :: rest => by
      simp [distinctFrom, keysAllEq, distinctFrom_empty_keys prev rest]

theorem untilDestroy_append_destroy {α : Type} :
    ∀ (xs ys : List (LEv α)),
      untilDestroy (xs ++ LEv.destroy :: ys) = untilDestroy (xs ++ [LEv.destroy])
  | [], _ => rfl
  | LEv.ev a :: xs, ys => by
      simp [untilDestroy, untilDestroy_append_destroy xs ys]
  | LEv.destroy :: _, _ => rfl

theorem bindValAfter_eq (evs : List BEv) :
    ∀ acc, bindValAfter acc evs = lastProducedFrom acc evs := by
  induction evs with
  | nil => intro acc; rfl
  | cons e evs ih =>
      intro acc
      cases e with
      | fire => exact ih acc
      | produce v => exact ih (some v)

theorem bindOutputsFrom_append (xs : List BEv) (e : BEv) :
    ∀ lv, bindOutputsFrom lv (xs ++ [e]) =
      bindOutputsFrom lv xs ++ (bindStep (bindValAfter lv xs) e).2 := by
  induction xs with
  | nil => intro lv; simp [bindOutputsFrom, bindValAfter]
  | cons x xs ih =>
      intro lv
      have h1 : bindOutputsFrom lv ((x :: xs) ++ [e]) =
          (bindStep lv x).2 ++ bindOutputsFrom (bindStep lv x).1 (xs ++ [e]) := rfl
      have h2 : bindOutputsFrom lv (x :: xs) =
          (bindStep lv x).2 ++ bindOutputsFrom (bindStep lv x).1 xs := rfl
      have h3 : bindValAfter lv (x :: xs) = bindValAfter (bindStep lv x).1 xs := rfl
      rw [h1, h2, h3, ih, List.append_assoc]

theorem mem_addKey (reg : List Key) (a k : Key) :
    k ∈ addKey reg a ↔ (k ∈ reg ∨ k = a) := by
  unfold addKey
  by_cases h : a ∈ reg
  · simp only [if_pos h]
    constructor
    · exact Or.inl
    · rintro (h2 | rfl)
      · exact h2
      · exact h
  · simp [if_neg h]

theorem mem_foldl_addKey (k : Key) (ks : List Key) :
    ∀ reg, k ∈ ks.foldl addKey reg ↔ (k ∈ reg ∨ k ∈ ks) := by
  induction ks with
  | nil => simp
  | cons a ks ih =>
      intro reg
      rw [List.foldl_cons, ih, mem_addKey]
      simp [or_assoc]

theorem mem_registryAfter (k : Key) (ops : List TOp) :
    ∀ reg, k ∈ registryAfter reg ops ↔
      (k ∈ reg ∨ ∃ ks, TOp.connectOp ks ∈ ops ∧ k ∈ ks) := by
  induction ops with
  | nil => simp [registryAfter]
  | cons op ops ih =>
      intro reg
      cases op with
      | connectOp ks =>
          rw [show registryAfter reg (TOp.connectOp ks :: ops) =
              registryAfter (ks.foldl addKey reg) ops from rfl, ih,
            mem_foldl_addKey]
          constructor
          · rintro ((h | h) | ⟨ks2, hmem, hk⟩)
            · exact Or.inl h
            · exact Or.inr ⟨ks, List.mem_cons_self _ _, h⟩
            · exact Or.inr ⟨ks2, List.mem_cons_of_mem _ hmem, hk⟩
          · rintro (h | ⟨ks2, hmem, hk⟩)
            · exact Or.inl (Or.inl h)
            · rcases List.mem_cons.mp hmem with heq | hmem2
              · cases heq with
                | refl => exact Or.inl (Or.inr hk)
              · exact Or.inr ⟨ks2, hmem2, hk⟩
      | triggerOp k2 =>
          rw [show registryAfter reg (TOp.triggerOp k2 :: ops) =
              registryAfter reg ops from rfl, ih]
          simp

theorem triggerExc_isOk (reg : List Key) (k : Key) :
    (triggerExc reg k).isOk = true ↔ k ∈ reg := by
  unfold triggerExc
  by_cases h : k ∈ reg
  · simp [h, Except.isOk, Except.toBool]
  · simp [h, Except.isOk, Except.toBool]

/- ## Claims -/

/-- C1: for every initial state s0 and every sequence of patch calls after
initialize(s0) succeeds, snapshot() returns exactly the left-fold of the
field-wise merges of the patch arguments over s0, in call order, and each
merge replaces precisely the fields present in that patch argument. -/
theorem c1_snapshot_is_foldl_of_merges (s0 : RecordT) (ps : List PatchArg) :
    snapshotOf (runOps none (SOp.init s0 :: ps.map SOp.patchOp)) =
      Except.ok (ps.foldl patchMerge s0)
    ∧ ∀ (s : RecordT) (p : PatchArg) (k : Key),
        patchMerge s p k = ((p.reverse.lookup k).getD (s k)) := by
  refine ⟨?_, fun s p k => patchMerge_apply s p k⟩
  have h : runOps none (SOp.init s0 :: ps.map SOp.patchOp) =
      some (ps.foldl patchMerge s0) := by
    simpa [runOps, stepCell] using runOps_patches s0 ps
  rw [h]
  rfl

/-- C2: a single patch call on an initialized state performs exactly one
push into the state cell, and the pushed state is the complete field-wise
merge of the patch argument over the current state, so no subscriber can
observe a partially-merged intermediate state from one patch call. -/
theorem c2_patch_single_push (cur : RecordT) (p : PatchArg) :
    (patchPushes (some cur) p).length = 1
    ∧ ∀ s ∈ patchPushes (some cur) p, ∀ k : Key,
        s k = ((p.reverse.lookup k).getD (cur k)) := by
  refine ⟨rfl, ?_⟩
  intro s hs k
  have h : s = patchMerge cur p := by simpa [patchPushes] using hs
  rw [h, patchMerge_apply]

theorem c2_witness :
    patchMerge exA [("a", 5)] "a" =
      (([("a", 5)] : PatchArg).reverse.lookup "a").getD (exA "a") :=
  (c2_patch_single_push exA [("a", 5)]).2 (patchMerge exA [("a", 5)])
    (by simp [patchPushes]) "a"

/-- C3: for a non-empty key list, onlySelectWhen emits the full current
state exactly when at least one requested field differs by identity from
the corresponding field of the previously emitted state, and the first
state reaching the stream after subscription is always emitted. -/
theorem c3_onlySelectWhen_keyed_emission (keys : List Key) (hne : keys ≠ []) :
    (∀ inputs, onlySelectWhen keys inputs =
        distinctFrom (keysAllEq keys) none (filterAndCastToT inputs))
    ∧ (∀ (s : RecordT) (rest : List RecordT),
        distinctFrom (keysAllEq keys) none (s :: rest) =
          s :: distinctFrom (keysAllEq keys) (some s) rest)
    ∧ (∀ (prev cur : RecordT) (rest : List RecordT),
        ((∃ k ∈ keys, cur k ≠ prev k) →
          distinctFrom (keysAllEq keys) (some prev) (cur :: rest) =
            cur :: distinctFrom (keysAllEq keys) (some cur) rest)
        ∧ ((∀ k ∈ keys, cur k = prev k) →
          distinctFrom (keysAllEq keys) (some prev) (cur :: rest) =
            distinctFrom (keysAllEq keys) (some prev) rest)) := by
  refine ⟨fun _ => rfl, fun s rest => rfl, fun prev cur rest => ⟨?_, ?_⟩⟩
  · intro h
    have hc : keysAllEq keys prev cur = false := by
      rcases h with ⟨k, hk, hneq⟩
      apply Bool.eq_false_iff.mpr
      intro hall
      exact hneq (by simpa using (List.all_eq_true.mp hall) k hk)
    simp [distinctFrom, hc]
  · intro h
    have hc : keysAllEq keys prev cur = true := by
      apply List.all_eq_true.mpr
      intro k hk
      simpa using h k hk
    simp [distinctFrom, hc]

theorem c3_witness :
    distinctFrom (keysAllEq ["a"]) (some exA) (exB :: []) =
      exB :: distinctFrom (keysAllEq ["a"]) (some exB) [] :=
  ((c3_onlySelectWhen_keyed_emission ["a"] (by decide)).2.2 exA exB []).1
    ⟨"a", by decide, by decide⟩

/-- C4: over every event trace of one connect binding, a produced value is
delivered to the patch callback immediately; a trigger firing causes a
resubscription whose startWith immediately replays the latest produced
value (nothing is delivered for a firing before the first produced value,
since combineLatest has not emitted yet); and every delivered value is
applied as a single-field patch of the bound field. -/
theorem c4_connect_binding (field : Key) (evs : List BEv) (v : Val) :
    connectOutputs (evs ++ [BEv.produce v]) = connectOutputs evs ++ [v]
    ∧ connectOutputs (evs ++ [BEv.fire]) =
        connectOutputs evs ++ (lastProduced evs).toList
    ∧ bindingPatches field evs =
        (connectOutputs evs).map (fun w => [(field, w)]) := by
  have hfire : ∀ (es : List BEv) (e : BEv),
      BEv.fire :: (es ++ [e]) = (BEv.fire :: es) ++ [e] := fun _ _ => rfl
  have hval : bindValAfter none (BEv.fire :: evs) = lastProduced evs := by
    have h0 : bindValAfter none (BEv.fire :: evs) = bindValAfter none evs := rfl
    rw [h0, bindValAfter_eq]
    rfl
  refine ⟨?_, ?_, rfl⟩
  · unfold connectOutputs
    rw [hfire, bindOutputsFrom_append]
    rfl
  · unfold connectOutputs
    rw [hfire, bindOutputsFrom_append, hval]
    rfl

/-- C5, counterexample: a subscriber that subscribes after ngOnDestroy has
fired still receives emissions, because destroy$$ has already emitted and
completed, and takeUntil reacts only to notifier emissions.  Here the late
subscriber receives the replayed current state and the state pushed by a
patch call made after disposal. -/
theorem c5_counterexample :
    selectEmissionsAt ["a"] 2 [LEv.ev exA, LEv.destroy, LEv.ev exB] =
      [exA, exB] := rfl

/-- C5, amended: after destroy$$ fires, no stream of the container delivers
any further emission to a subscription created at or before the firing:
the emissions of state$/onlySelectWhen to any subscriber that subscribed
before disposal, the outputs of any connect binding, and the patches
applied by the optional input-state subscription of initialize are unchanged by
anything that happens after the destroy event. -/
theorem c5_no_emission_after_destroy_for_live_subscriptions
    (keys : List Key) (t : Nat) (pre post : List (LEv RecordT))
    (ht : t ≤ pre.length) :
    (selectEmissionsAt keys t (pre ++ LEv.destroy :: post) =
      selectEmissionsAt keys t (pre ++ [LEv.destroy]))
    ∧ (∀ (bevs post2 : List (LEv BEv)),
        connectOutputsLive (bevs ++ LEv.destroy :: post2) =
          connectOutputsLive (bevs ++ [LEv.destroy]))
    ∧ (∀ (svs post3 : List (LEv PatchArg)),
        sourcePatchesApplied (svs ++ LEv.destroy :: post3) =
          sourcePatchesApplied (svs ++ [LEv.destroy])) := by
  refine ⟨?_, fun bevs post2 => ?_, fun svs post3 => ?_⟩
  · unfold selectEmissionsAt subscriberInputs
    rw [List.take_append_of_le_length ht, List.take_append_of_le_length ht,
      List.drop_append_of_le_length ht, List.drop_append_of_le_length ht,
      untilDestroy_append_destroy]
  · unfold connectOutputsLive
    rw [untilDestroy_append_destroy]
  · unfold sourcePatchesApplied
    rw [untilDestroy_append_destroy]

theorem c5_amended_witness :
    selectEmissionsAt ["a"] 1 ([LEv.ev exA] ++ LEv.destroy :: [LEv.ev exB]) =
      selectEmissionsAt ["a"] 1 ([LEv.ev exA] ++ [LEv.destroy]) :=
  (c5_no_emission_after_destroy_for_live_subscriptions ["a"] 1 [LEv.ev exA]
    [LEv.ev exB] (by decide)).1

/-- C6: the state$ stream is observationally equivalent to onlySelectWhen
applied to the full declared key set of the record: on every delivered
trace of the state cell they produce identical emissions in identical
order. -/
theorem c6_state_is_onlySelectWhen_allKeys (allKeys : List Key)
    (inputs : List (Option RecordT)) :
    stateStream allKeys inputs = onlySelectWhen allKeys inputs := rfl

/-- C7: a patch call preserves, identically, every field whose key is not
present in its argument, both in the merged state and in the state it
pushes into the cell. -/
theorem c7_patch_frame (cur : RecordT) (p : PatchArg) (k : Key)
    (hk : k ∉ p.map Prod.fst) :
    patchMerge cur p k = cur k
    ∧ ∀ s ∈ patchPushes (some cur) p, s k = cur k := by
  refine ⟨patchMerge_not_mem cur p k hk, ?_⟩
  intro s hs
  have h : s = patchMerge cur p := by simpa [patchPushes] using hs
  rw [h]
  exact patchMerge_not_mem cur p k hk

theorem c7_witness : patchMerge exA [("a", 5)] "b" = exA "b" :=
  (c7_patch_frame exA [("a", 5)] "b" (by decide)).1

/-- C8: snapshot and patch fail with the Uninitialized error exactly when
no initialize call has happened before them (initialize always succeeds,
and the error is the synchronous result of the call itself); and once an
initialize call has happened, the cell is never uninitialized again, so no
later snapshot or patch call fails. -/
theorem c8_uninitialized_iff (ops : List SOp) (p : PatchArg) :
    ((snapshotOf (runOps none ops)).isOk = false ↔ hasInit ops = false)
    ∧ ((patchExc (runOps none ops) p).isOk = false ↔ hasInit ops = false)
    ∧ (hasInit ops = true → ∀ more : List SOp,
        (snapshotOf (runOps none (ops ++ more))).isOk = true
        ∧ (patchExc (runOps none (ops ++ more)) p).isOk = true) := by
  have h := runOps_isSome none ops
  simp only [Option.isSome_none, Bool.false_or] at h
  refine ⟨?_, ?_, ?_⟩
  · rw [snapshotOf_isOk, h]
  · rw [patchExc_isOk, h]
  · intro hini more
    have h2 := runOps_isSome none (ops ++ more)
    simp only [Option.isSome_none, Bool.false_or] at h2
    have h4 : ops.any isInit = true := hini
    have h3 : hasInit (ops ++ more) = true := by
      simp [hasInit, List.any_append, h4]
    rw [snapshotOf_isOk, patchExc_isOk, h2, h3]
    exact ⟨rfl, rfl⟩

theorem c8_witness :
    (snapshotOf (runOps none ([SOp.init exA] ++ [SOp.patchOp [("a", 5)]]))).isOk
      = true :=
  ((c8_uninitialized_iff [SOp.init exA] [("a", 5)]).2.2 rfl
    [SOp.patchOp [("a", 5)]]).1

/-- C9: trigger(k) succeeds exactly when some earlier connect call bound
the key k (and fails with the NoTriggerRegistered error exactly when none
did), and registry entries are never removed: a registered key stays
registered under any further operations. -/
theorem c9_trigger_registry (ops : List TOp) (k : Key) :
    ((triggerExc (registryAfter [] ops) k).isOk = true ↔
      ∃ ks, TOp.connectOp ks ∈ ops ∧ k ∈ ks)
    ∧ (∀ (more : List TOp) (k2 : Key),
        k2 ∈ registryAfter [] ops → k2 ∈ registryAfter [] (ops ++ more)) := by
  refine ⟨?_, ?_⟩
  · rw [triggerExc_isOk, mem_registryAfter]
    simp
  · intro more k2 hmem
    rw [mem_registryAfter] at hmem ⊢
    rcases hmem with h | ⟨ks, hks, hk2⟩
    · exact absurd h (List.not_mem_nil k2)
    · exact Or.inr ⟨ks, List.mem_append_left more hks, hk2⟩

theorem c9_witness :
    "x" ∈ registryAfter [] ([TOp.connectOp ["x"]] ++ [TOp.triggerOp "x"]) :=
  (c9_trigger_registry [TOp.connectOp ["x"]] "x").2 [TOp.triggerOp "x"] "x"
    (by decide)

/-- C10: onlySelectWhen with an empty key list emits the first state it
receives after subscription and nothing else: the comparator is vacuously
true over an empty key list, so every later state is deduplicated. -/
theorem c10_empty_keys_emits_first_only (inputs : List (Option RecordT)) :
    onlySelectWhen [] inputs = (filterAndCastToT inputs).take 1 := by
  unfold onlySelectWhen
  cases h : filterAndCastToT inputs with
  | nil => rfl
  | cons s rest =>
      have h1 : distinctFrom (keysAllEq []) none (s :: rest) =
          s :: distinctFrom (keysAllEq []) (some s) rest := rfl
      rw [h1, distinctFrom_empty_keys]
      rfl

end ObsState
